import Mathlib

/-!
Verification development for the `rust-autograd` repository: a shallow
embedding of its reverse-mode automatic-differentiation drafts, together
with theorems settling the specification claims.

The repository contains several coexisting drafts of the same engine:
* `src/variable.rs`  — scalar engine (`Var<T>`): Input/OpAdd/OpMul nodes,
  forward `eval` over a unique-mode topological sort, `backward` over a
  revisit-mode topological sort with a grad map keyed by node id.
* `src/variable2.rs` — an earlier draft (add only) whose `backward`
  passes a fresh ones seed to every handler.
* `src/context.rs`   — a context-based draft whose `backward` uses the
  unique-mode sort; its `Variable` struct is not part of `src/`.
* `src/backward_basic_ops.rs`, `src/backward_linalg_ops.rs` — tensor
  (NDArray) backward handlers; their cell-based `Var` is not in `src/`.
* `src/traits.rs`, `src/traits_ndarray.rs` — the capability interface and
  its f32 / NDArray instances.

The scalar element type `f32` is modelled by `ℤ`: every claim involves
only small integral values and no rounding, and the relevant trait code
(`get_zero_grad = 0.0`, `get_default_init_grad = 1.0`) is value-exact.
-/

/-! ## Scalar engine of `src/variable.rs` -/

/-- Op tags of `variable.rs` (`enum VariableType { Input, OpAdd, OpMul }`);
`Input` is represented by the separate `Var.input` constructor below. -/
inductive BinOp where
  | add
  | mul
deriving DecidableEq, Repr

/-- The `Var<T>` node of `variable.rs` (specialised to the scalar carrier).
`input` carries the `is_leaf = true, var_type = Input` case, `node` the op
case with its two boxed deps.  The Rust struct's `data` cell lives in a
separate `Cells` store keyed by the leaf's id (`Rc<RefCell<Option<T>>>`
shared by `copy(false)`), and `data_map` / `grad_map` / `evaluated` are
carried by the execution state, mirroring the fields maintained on the
root handle. -/
inductive Var where
  | input (id : Nat) (rg : Bool)
  | node (id : Nat) (op : BinOp) (rg : Bool) (l r : Var)
deriving DecidableEq, Repr

/-- Field `id` of `Var`. -/
def Var.vid : Var → Nat
  | .input i _ => i
  | .node i _ _ _ _ => i

/-- Field `requires_grad` of `Var`. -/
def Var.requiresGrad : Var → Bool
  | .input _ b => b
  | .node _ _ b _ _ => b

/-- Field `is_leaf` of `Var` (`Var::new` sets `true`, `bin_op` sets `false`). -/
def Var.isLeaf : Var → Bool
  | .input _ _ => true
  | .node _ _ _ _ _ => false

/-- `Var::new` (variable.rs:124-137): a leaf with `requires_grad = false`;
its data is registered in the `Cells` store under the same id. -/
def Var.new (i : Nat) : Var := .input i false

/-- `Var::set_requires_grad` (variable.rs:255-257): unconditionally assigns
the flag, for leaves and op nodes alike; no check, no error.
`variable2.rs:212-214` (`Var::requires_grad(&mut self, val)`) is the same
assignment. -/
def Var.set_requires_grad : Var → Bool → Var
  | .input i _, b => .input i b
  | .node i op _ l r, b => .node i op b l r

/-- `Var::bin_op` (variable.rs:279-292): fresh op node whose deps are
by-value copies of the operands and whose `requires_grad` is the OR of the
operands' flags at construction time. -/
def Var.bin_op (x y : Var) (i : Nat) (k : BinOp) : Var :=
  .node i k (x.requiresGrad || y.requiresGrad) x y

/-- `Var::add` (variable.rs:294-296); `variable2.rs:232-247` builds the
same node shape. -/
def Var.addV (x y : Var) (i : Nat) : Var := Var.bin_op x y i .add

/-- `Var::mul` (variable.rs:298-300). -/
def Var.mulV (x y : Var) (i : Nat) : Var := Var.bin_op x y i .mul

/-- Leaf data cells: id of the leaf ↦ current content of its
`Rc<RefCell<Option<T>>>` data cell.  Newer writes are consed at the front
(`List.lookup` finds the first match, modelling overwriting). -/
abbrev Cells := List (Nat × ℤ)

/-- An entry of the `ValueMap` `data_map`: for an `Input` node, `eval`
inserts `Rc::clone(&var.data)` — an alias of the leaf's live cell —
while `set_by_id` always inserts a freshly owned cell. -/
inductive DEntry where
  | aliasLeaf (i : Nat)
  | owned (v : ℤ)
deriving DecidableEq, Repr

/-- The `data_map : ValueMap<T>` (HashMap insert = cons at the front). -/
abbrev DataMap := List (Nat × DEntry)

/-- The `grad_map : ValueMap<T>`; grads are always owned cells. -/
abbrev GradMap := List (Nat × ℤ)

/-- `ValueMap::get_by_id` (variable.rs:20-31) composed with `get_value`:
resolves an alias entry through the current leaf cells. -/
def getById (cells : Cells) (m : DataMap) (i : Nat) : Option ℤ :=
  match m.lookup i with
  | some (DEntry.aliasLeaf j) => cells.lookup j
  | some (DEntry.owned v) => some v
  | none => none

/-- Op dispatch of `Var::eval` (variable.rs:243-244): the closures
`|a, b| a + b` and `|a, b| a * b` passed to `eval_bin_op`. -/
def BinOp.apply : BinOp → ℤ → ℤ → ℤ
  | .add, a, b => a + b
  | .mul, a, b => a * b

/-- `Var::dfs` (variable.rs:163-177): if `allow_revisit || !visited`, mark
visited, recurse into deps left-to-right, push self (post-order). -/
def Var.dfs (allowRevisit : Bool) : Var → List Nat → List Var → List Nat × List Var
  | .input i b, visited, stack =>
      if allowRevisit || !(visited.contains i) then
        (i :: visited, stack ++ [Var.input i b])
      else (visited, stack)
  | .node i op b l r, visited, stack =>
      if allowRevisit || !(visited.contains i) then
        let s1 := Var.dfs allowRevisit l (i :: visited) stack
        let s2 := Var.dfs allowRevisit r s1.1 s1.2
        (s2.1, s2.2 ++ [Var.node i op b l r])
      else (visited, stack)

/-- `Var::topological_sort` (variable.rs:179-184). -/
def Var.topological_sort (entry : Var) (allowRevisit : Bool) : List Var :=
  (Var.dfs allowRevisit entry [] []).2

/-- The loop body of `Var::eval` (variable.rs:238-246): `Input` inserts an
alias of the leaf cell, ops read both deps from the data map (`unwrap` =
`Option` bind) and insert the freshly computed value. -/
def evalList (cells : Cells) : List Var → DataMap → Option DataMap
  | [], m => some m
  | Var.input i _ :: rest, m =>
      evalList cells rest ((i, DEntry.aliasLeaf i) :: m)
  | Var.node i op _ l r :: rest, m => do
      let a ← getById cells m l.vid
      let b ← getById cells m r.vid
      evalList cells rest ((i, DEntry.owned (BinOp.apply op a b)) :: m)

/-- `Var::eval` (variable.rs:232-249): unique-mode sort, fresh `data_map`
each call. -/
def Var.eval (cells : Cells) (root : Var) : Option DataMap :=
  evalList cells (Var.topological_sort root false) []

/-- `add_backward` (variable.rs:41-69): for each dep with `requires_grad`,
unwrap its data, read its current grad (or `get_zero_grad() = 0`), add the
parent grad and store.  The right dep reads the map already updated by the
left dep, so `x + x` accumulates twice. -/
def add_backward (cells : Cells) (dataMap : DataMap) (gradMap : GradMap)
    (ldep rdep : Var) (parentGrad : ℤ) : Option GradMap := do
  let g1 ←
    if ldep.requiresGrad then do
      let _ldata ← getById cells dataMap ldep.vid
      let lgrad := (gradMap.lookup ldep.vid).getD 0
      pure ((ldep.vid, lgrad + parentGrad) :: gradMap)
    else pure gradMap
  if rdep.requiresGrad then do
    let _rdata ← getById cells dataMap rdep.vid
    let rgrad := (g1.lookup rdep.vid).getD 0
    pure ((rdep.vid, rgrad + parentGrad) :: g1)
  else pure g1

/-- `mul_backward` (variable.rs:71-103): contributions
`parent_grad * r_data` and `parent_grad * l_data`. -/
def mul_backward (cells : Cells) (dataMap : DataMap) (gradMap : GradMap)
    (ldep rdep : Var) (parentGrad : ℤ) : Option GradMap := do
  let g1 ←
    if ldep.requiresGrad then do
      let _ldata ← getById cells dataMap ldep.vid
      let rdata ← getById cells dataMap rdep.vid
      let lgrad := (gradMap.lookup ldep.vid).getD 0
      pure ((ldep.vid, lgrad + parentGrad * rdata) :: gradMap)
    else pure gradMap
  if rdep.requiresGrad then do
    let _rdata ← getById cells dataMap rdep.vid
    let ldata ← getById cells dataMap ldep.vid
    let rgrad := (g1.lookup rdep.vid).getD 0
    pure ((rdep.vid, rgrad + parentGrad * ldata) :: g1)
  else pure g1

/-- One handler invocation observed during backward: the node id, the
`parent_grad` value passed to `bw_fn`, and the grad-map entry of that node
at the moment of the call. -/
abbrev BwInv := Nat × ℤ × Option ℤ

/-- One iteration of the backward loop of `Var::backward`
(variable.rs:202-222): leaves have `backward_fn = None` and are skipped;
for op nodes the data value is unwrapped, the incoming grad is the default
init grad (`1.0`) for the root and the grad-map entry (`unwrap`) otherwise,
and the matching handler runs.  The returned `BwInv` records the invocation. -/
def backwardStep (cells : Cells) (rootId : Nat) (dataMap : DataMap)
    (gradMap : GradMap) : Var → Option (GradMap × Option BwInv)
  | Var.input _ _ => some (gradMap, none)
  | Var.node i op _ l r => do
      let _varVal ← getById cells dataMap i
      let grad ← if i = rootId then some (1 : ℤ) else gradMap.lookup i
      let g' ←
        match op with
        | BinOp.add => add_backward cells dataMap gradMap l r grad
        | BinOp.mul => mul_backward cells dataMap gradMap l r grad
      pure (g', some (i, grad, gradMap.lookup i))

/-- The iterative loop of `Var::backward` (variable.rs:201-222), also
accumulating the invocation record. -/
def backwardLoop (cells : Cells) (rootId : Nat) (dataMap : DataMap) :
    List Var → GradMap → List BwInv → Option (GradMap × List BwInv)
  | [], g, tr => some (g, tr)
  | v :: rest, g, tr => do
      let s ← backwardStep cells rootId dataMap g v
      backwardLoop cells rootId dataMap rest s.1 (tr ++ s.2.toList)

/-- `Var::backward` (variable.rs:186-223): `eval`, then a REVISIT-mode
topological sort (`self.topological_sort(self, true)`), reversed, with a
fresh `grad_map`. -/
def Var.backward (cells : Cells) (root : Var) : Option GradMap := do
  let dm ← Var.eval cells root
  let s ← backwardLoop cells root.vid dm (Var.topological_sort root true).reverse [] []
  pure s.1

/-- The invocation record of `Var::backward` (same run as `Var.backward`). -/
def Var.backwardInvs (cells : Cells) (root : Var) : Option (List BwInv) := do
  let dm ← Var.eval cells root
  let s ← backwardLoop cells root.vid dm (Var.topological_sort root true).reverse [] []
  pure s.2

/-- Modelled from the spec: the backward pass of §4.4 step 3, which uses
the UNIQUE-mode topological sort and then reverses (as `Context::backward`
in context.rs:80-99 does).  Identical to `Var.backward` except that
`allow_revisit = false`; used to exhibit the divergence of the claim about
variable.rs's revisit-mode backward. -/
def Var.backwardUnique (cells : Cells) (root : Var) : Option GradMap := do
  let dm ← Var.eval cells root
  let s ← backwardLoop cells root.vid dm (Var.topological_sort root false).reverse [] []
  pure s.1

example : (Var.backward [(0, 2), (1, 3)]
    (Var.addV (Var.input 0 true) (Var.input 1 false) 2)).bind
      (fun g => g.lookup 0) = some 1 := by decide

example : (Var.backward [(0, 2)]
    (Var.addV (Var.input 0 true) (Var.input 0 true) 1)).bind
      (fun g => g.lookup 0) = some 2 := by decide

example : (Var.backward [(0, 2)]
    (Var.mulV (Var.mulV (Var.input 0 true) (Var.input 0 true) 1)
      (Var.input 0 true) 2)).bind (fun g => g.lookup 0) = some 12 := by decide

/-! ## Earlier draft `src/variable2.rs` (add only)

Same graph/type shape; its `add_backward` (variable2.rs:24-52) is the same
accumulation as variable.rs's, and its `eval` (variable2.rs:179-204) is
the same unique-sort forward pass; `Var.eval` is reused for both.  The one
behavioural difference, which these claims turn on, is the backward loop
(variable2.rs:164-176): the grad passed to EVERY handler is
`var_val.get_default_init_grad()` — a fresh ones seed — with no root
check and no grad-map read. -/

/-- One iteration of the backward loop of variable2.rs:164-176: the grad
passed to the handler is always `get_default_init_grad() = 1`.  Only
`OpAdd` exists in variable2.rs (its `Var::add` is the one constructor),
so a mul node aborts; no such node can be built there. -/
def backwardStep2 (cells : Cells) (dataMap : DataMap)
    (gradMap : GradMap) : Var → Option (GradMap × Option BwInv)
  | Var.input _ _ => some (gradMap, none)
  | Var.node i op _ l r => do
      let _varVal ← getById cells dataMap i
      let grad : ℤ := 1
      let g' ←
        match op with
        | BinOp.add => add_backward cells dataMap gradMap l r grad
        | BinOp.mul => none
      pure (g', some (i, grad, gradMap.lookup i))

/-- The iterative loop of variable2.rs's `Var::backward`. -/
def backwardLoop2 (cells : Cells) (dataMap : DataMap) :
    List Var → GradMap → List BwInv → Option (GradMap × List BwInv)
  | [], g, tr => some (g, tr)
  | v :: rest, g, tr => do
      let s ← backwardStep2 cells dataMap g v
      backwardLoop2 cells dataMap rest s.1 (tr ++ s.2.toList)

/-- `Var::backward` of variable2.rs:149-177: `eval`, revisit-mode sort,
reverse, fresh `grad_map`, then the loop above. -/
def Var2.backward (cells : Cells) (root : Var) : Option GradMap := do
  let dm ← Var.eval cells root
  let s ← backwardLoop2 cells dm (Var.topological_sort root true).reverse [] []
  pure s.1

/-- The invocation record of variable2.rs's `Var::backward`. -/
def Var2.backwardInvs (cells : Cells) (root : Var) : Option (List BwInv) := do
  let dm ← Var.eval cells root
  let s ← backwardLoop2 cells dm (Var.topological_sort root true).reverse [] []
  pure s.2

/-! ## Root handle state for `val` / `eval` (variable.rs:232-274) -/

/-- The mutable per-handle state of variable.rs's `Var`: the graph value
plus the `evaluated` flag and the root-maintained `data_map`. -/
structure Handle where
  var : Var
  evaluated : Bool
  dataMap : Option DataMap
deriving DecidableEq, Repr

/-- A fresh handle as produced by `Var::new` / `bin_op`
(`evaluated = false`, `data_map = None`). -/
def Handle.new (v : Var) : Handle := ⟨v, false, none⟩

/-- `Var::eval` seen from the handle (variable.rs:232-249): recomputes the
`data_map` from scratch and sets `evaluated = true`; failure of an
internal `unwrap` aborts. -/
def Handle.evalH (cells : Cells) (h : Handle) : Option Handle :=
  (Var.eval cells h.var).map (fun dm => ⟨h.var, true, some dm⟩)

/-- `Var::val` (variable.rs:266-274): run `eval` only if `evaluated` is
not yet set, then read this node's entry from the data map (returning
`None` when the map is absent). -/
def Handle.val (cells : Cells) (h : Handle) : Option (Option ℤ × Handle) := do
  let h' ← if h.evaluated then pure h else Handle.evalH cells h
  pure (h'.dataMap.bind (fun dm => getById cells dm h'.var.vid), h')

/-- Modelled from the spec: overwriting a leaf's data cell between
evaluations (spec §3 Lifetime: "the user may overwrite it before the next
evaluation"); `src/` exposes no setter, so the write is modelled directly
on the cell store. -/
def overwriteLeaf (cells : Cells) (i : Nat) (v : ℤ) : Cells :=
  (i, v) :: cells

/-! ## The n-fold sum `x + x + ... + x` for claim C1 -/

/-- The leaf `x` with `requires_grad` set (`Var::new` then
`set_requires_grad(true)`), carrying id 0. -/
def xLeaf : Var := Var.set_requires_grad (Var.new 0) true

/-- `chain k` is the (k+1)-fold sum of `x`: `chain 0 = x`, and
`chain (k+1) = (chain k).add(&x)` with fresh id `k+1` — the way
`x + x + … + x` is built left-to-right with `add`. -/
def chain : Nat → Var
  | 0 => xLeaf
  | k + 1 => Var.addV (chain k) xLeaf (k + 1)

example : (Var.backward [(0, 5)] (chain 3)).bind (fun g => g.lookup 0) =
    some 4 := by decide

example : (Var.backward [(0, 5)] (chain 0)).bind (fun g => g.lookup 0) =
    none := by decide

example : (Var2.backwardInvs [(0, 1), (1, 1)]
    (Var.addV (Var.addV (Var.input 0 true) (Var.input 1 false) 2)
      (Var.addV (Var.input 0 true) (Var.input 1 false) 2) 3)) =
    some [(3, 1, none), (2, 1, some 2), (2, 1, some 2)] := by decide

/-! ## NDArray model (`src/traits_ndarray.rs` over the `ndarray` crate)

The concrete n-d array is an external collaborator (spec §1); `NDArr`
models the dynamically-shaped row-major array with the `ndarray` crate's
documented semantics: arithmetic operators co-broadcast the two operand
shapes (numpy rules, `ndarray` ≥ 0.15) and abort on incompatible shapes,
`sum_axis` REMOVES the summed axis, `t` and `dot` are rank-2 only.
Element values are integral in every claim, so the `f64` element is
modelled by `ℤ`. -/

structure NDArr where
  shape : List Nat
  data : List ℤ
deriving DecidableEq, Repr

/-- Row-major flat index of a multi-index. -/
def flatIdx : List Nat → List Nat → Nat
  | _ :: ds, i :: is => i * ds.prod + flatIdx ds is
  | _, _ => 0

/-- All multi-indices of a shape, in row-major order. -/
def allIdx : List Nat → List (List Nat)
  | [] => [[]]
  | d :: ds => (List.range d).flatMap (fun i => (allIdx ds).map (i :: ·))

/-- Broadcast-compatible combination of two equal-rank shapes. -/
def bcDims : List Nat → List Nat → Option (List Nat)
  | [], [] => some []
  | a :: s, b :: t => do
      let r ← bcDims s t
      if a = b then pure (a :: r)
      else if a = 1 then pure (b :: r)
      else if b = 1 then pure (a :: r)
      else none
  | _, _ => none

/-- Mutual broadcast of two shapes: pad the shorter with leading 1-extents,
then combine dimensionwise. -/
def bcShape (s t : List Nat) : Option (List Nat) :=
  let n := max s.length t.length
  bcDims (List.replicate (n - s.length) 1 ++ s) (List.replicate (n - t.length) 1 ++ t)

/-- Read an array at a (possibly longer) broadcast multi-index: drop the
leading coordinates beyond the array's rank and clamp 1-extent axes to 0. -/
def NDArr.bget (a : NDArr) (idx : List Nat) : ℤ :=
  let idx1 := idx.drop (idx.length - a.shape.length)
  let idx2 := List.zipWith (fun d i => if d = 1 then 0 else i) a.shape idx1
  a.data.getD (flatIdx a.shape idx2) 0

/-- Elementwise binary operator with co-broadcasting; `none` models the
`ndarray` shape panic. -/
def NDArr.binop (f : ℤ → ℤ → ℤ) (a b : NDArr) : Option NDArr :=
  (bcShape a.shape b.shape).map
    (fun s => ⟨s, (allIdx s).map (fun ix => f (a.bget ix) (b.bget ix))⟩)

/-- `impl Add for NDArray` (traits_ndarray.rs:27-32): elementwise `+`. -/
def NDArr.addA (a b : NDArr) : Option NDArr := NDArr.binop (· + ·) a b

/-- `impl Sub for NDArray` (traits_ndarray.rs:34-39): elementwise `-`. -/
def NDArr.subA (a b : NDArr) : Option NDArr := NDArr.binop (· - ·) a b

/-- `impl Mul for NDArray` (traits_ndarray.rs:41-46): elementwise `*`. -/
def NDArr.mulA (a b : NDArr) : Option NDArr := NDArr.binop (· * ·) a b

/-- `impl Div for NDArray` (traits_ndarray.rs:48-53).  The body is
`Self(self.0.mul(rhs.0.into_owned()).into())` — it MULTIPLIES: the
division operator of the tensor element type computes an elementwise
product, not a quotient. -/
def NDArr.divA (a b : NDArr) : Option NDArr := NDArr.mulA a b

/-- A constant-filled array of a given shape. -/
def NDArr.fill (s : List Nat) (v : ℤ) : NDArr := ⟨s, List.replicate s.prod v⟩

/-- `HasGrad::get_zero_grad` for NDArray (traits_ndarray.rs:18-20):
zeros of `self`'s shape. -/
def NDArr.zeroGrad (a : NDArr) : NDArr := NDArr.fill a.shape 0

/-- `HasGrad::get_default_init_grad` for NDArray (traits_ndarray.rs:22-24):
ones of `self`'s shape (the backward seed). -/
def NDArr.oneGrad (a : NDArr) : NDArr := NDArr.fill a.shape 1

/-- `Reduce::sum_axis` for NDArray (traits_ndarray.rs:89-92): the
`ndarray` `sum_axis`, which REMOVES the summed axis from the shape. -/
def NDArr.sumAxis (a : NDArr) (ax : Nat) : NDArr :=
  let s := a.shape.take ax ++ a.shape.drop (ax + 1)
  let ext := a.shape.getD ax 1
  ⟨s, (allIdx s).map (fun ix =>
      (List.range ext).foldl
        (fun acc k => acc + a.data.getD (flatIdx a.shape (ix.take ax ++ k :: ix.drop ax)) 0) 0)⟩

/-- `Transpose::t` for NDArray (traits_ndarray.rs:95-106): rank-2 only
(otherwise the source aborts). -/
def NDArr.t (a : NDArr) : Option NDArr :=
  match a.shape with
  | [m, n] => some ⟨[n, m], (allIdx [n, m]).map
      (fun ix => a.data.getD (flatIdx [m, n] [ix.getD 1 0, ix.getD 0 0]) 0)⟩
  | _ => none

/-- `Dot::dot` for NDArray (traits_ndarray.rs:63-81): rank-2 matrix
product; aborts on non-rank-2 operands or inner-dimension mismatch. -/
def NDArr.dot (a b : NDArr) : Option NDArr :=
  match a.shape, b.shape with
  | [m, k], [k', n] =>
      if k = k' then
        some ⟨[m, n], (allIdx [m, n]).map (fun ix =>
          (List.range k).foldl (fun acc j =>
            acc + a.data.getD (flatIdx [m, k] [ix.getD 0 0, j]) 0 *
              b.data.getD (flatIdx [k', n] [j, ix.getD 1 0]) 0) 0)⟩
      else none
  | _, _ => none

example : NDArr.dot ⟨[2, 2], [1, 1, 2, 2]⟩ ⟨[2, 1], [3, 5]⟩ =
    some ⟨[2, 1], [8, 16]⟩ := by decide
example : NDArr.t ⟨[2, 3], [1, 2, 3, 4, 5, 6]⟩ =
    some ⟨[3, 2], [1, 4, 2, 5, 3, 6]⟩ := by decide
example : NDArr.sumAxis ⟨[2, 3], [1, 2, 3, 4, 5, 6]⟩ 0 =
    ⟨[3], [5, 7, 9]⟩ := by decide
example : NDArr.sumAxis ⟨[2, 3], [1, 2, 3, 4, 5, 6]⟩ 1 =
    ⟨[2], [6, 15]⟩ := by decide
example : NDArr.addA ⟨[1, 3], [0, 0, 0]⟩ ⟨[2, 1], [12, 12]⟩ =
    some ⟨[2, 3], [12, 12, 12, 12, 12, 12]⟩ := by decide

/-! ## Tensor backward handlers

`src/backward_basic_ops.rs` and `src/backward_linalg_ops.rs` operate on a
cell-based `Var` (methods `data()`, `grad()`, `set_grad()`) that is not
part of `src/`; the handlers below take that node state (each dep's data,
`requires_grad` flag and current grad cell) as explicit arguments and
return the two updated grad cells.  The dep nodes are assumed distinct
(as in every input used here).  `none` models an `unwrap` failure or an
`ndarray` shape panic. -/

/-- `compute_broadcasted_gradients` (backward_basic_ops.rs:6-25): sum out
`ndims_added` times along axis `ndims_added`, then sum along every axis
where the input's extent is 1. -/
def compute_broadcasted_gradients (data parentGrad : NDArr) : NDArr :=
  let ndimsAdded := parentGrad.shape.length - data.shape.length
  let pg := (List.range ndimsAdded).foldl
    (fun g _ => NDArr.sumAxis g ndimsAdded) parentGrad
  (List.range data.shape.length).foldl
    (fun g i => if data.shape.getD i 0 = 1 then NDArr.sumAxis g i else g) pg

/-- `add_backward` (backward_basic_ops.rs:27-51): the only basic handler
that calls `compute_broadcasted_gradients`; the reduced parent grad is
added to `grad().unwrap_or(get_zero_grad())`. -/
def add_backward_nd (lData rData : NDArr) (lRG rRG : Bool)
    (lGrad rGrad : Option NDArr) (parentGrad : NDArr) :
    Option (Option NDArr × Option NDArr) := do
  let lg ←
    if lRG then do
      let pg := compute_broadcasted_gradients lData parentGrad
      let cur := lGrad.getD lData.zeroGrad
      let ng ← NDArr.addA cur pg
      pure (some ng)
    else pure lGrad
  let rg2 ←
    if rRG then do
      let pg := compute_broadcasted_gradients rData parentGrad
      let cur := rGrad.getD rData.zeroGrad
      let ng ← NDArr.addA cur pg
      pure (some ng)
    else pure rGrad
  pure (lg, rg2)

/-- `sub_backward` (backward_basic_ops.rs:53-73): NO broadcast reduction;
left adds `parent_grad`, right subtracts it. -/
def sub_backward_nd (lData rData : NDArr) (lRG rRG : Bool)
    (lGrad rGrad : Option NDArr) (parentGrad : NDArr) :
    Option (Option NDArr × Option NDArr) := do
  let lg ←
    if lRG then do
      let cur := lGrad.getD lData.zeroGrad
      let ng ← NDArr.addA cur parentGrad
      pure (some ng)
    else pure lGrad
  let rg2 ←
    if rRG then do
      let cur := rGrad.getD rData.zeroGrad
      let ng ← NDArr.subA cur parentGrad
      pure (some ng)
    else pure rGrad
  pure (lg, rg2)

/-- `mul_backward` (backward_basic_ops.rs:75-99): NO broadcast reduction;
contributions `parent_grad * r_data` and `parent_grad * l_data`. -/
def mul_backward_nd (lData rData : NDArr) (lRG rRG : Bool)
    (lGrad rGrad : Option NDArr) (parentGrad : NDArr) :
    Option (Option NDArr × Option NDArr) := do
  let lg ←
    if lRG then do
      let cur := lGrad.getD lData.zeroGrad
      let contrib ← NDArr.mulA parentGrad rData
      let ng ← NDArr.addA cur contrib
      pure (some ng)
    else pure lGrad
  let rg2 ←
    if rRG then do
      let cur := rGrad.getD rData.zeroGrad
      let contrib ← NDArr.mulA parentGrad lData
      let ng ← NDArr.addA cur contrib
      pure (some ng)
    else pure rGrad
  pure (lg, rg2)

/-- `dot_backward` (backward_linalg_ops.rs:6-27).  Note line 15 of the
source: the left dep's missing grad is initialised from
`r_dep.data().unwrap().get_zero_grad()` — zeros of the RIGHT operand's
shape — while the right branch (line 22) correctly uses `r_dep`'s own. -/
def dot_backward_nd (lData rData : NDArr) (lRG rRG : Bool)
    (lGrad rGrad : Option NDArr) (parentGrad : NDArr) :
    Option (Option NDArr × Option NDArr) := do
  let lg ←
    if lRG then do
      let rt ← NDArr.t rData
      let gw ← NDArr.dot parentGrad rt
      let cur := lGrad.getD rData.zeroGrad
      let ng ← NDArr.addA cur gw
      pure (some ng)
    else pure lGrad
  let rg2 ←
    if rRG then do
      let lt ← NDArr.t lData
      let gw ← NDArr.dot lt parentGrad
      let cur := rGrad.getD rData.zeroGrad
      let ng ← NDArr.addA cur gw
      pure (some ng)
    else pure rGrad
  pure (lg, rg2)

example : dot_backward_nd ⟨[2, 2], [1, 1, 2, 2]⟩ ⟨[2, 1], [3, 5]⟩ true true
    none none (NDArr.fill [2, 1] 1) =
    some (some ⟨[2, 2], [3, 5, 3, 5]⟩, some ⟨[2, 1], [3, 3]⟩) := by decide

/-! ## Context draft (`src/context.rs`), scalar carrier

`context.rs` imports a `Variable` struct (fields `data_id`, `deps`,
`var_type`, `requires_grad`, `backward_fn`) that is not under `src/`;
`CVar` below is modelled from the spec's value-node data model (§3) and
from exactly the fields `context.rs` reads.  The evaluation logic itself
(`handle_binop`, `topological_sort`, `eval_graph`) is translated from
`context.rs`.  The carrier is `ℤ`, matching the `i32` instantiation of
context.rs's own tests (`GetGrad<i32>`: zero 0, initial 1). -/

/-- Op tags of the context draft (`VarType`: Leaf, OpAdd, OpSub, OpMul,
OpDiv); `Leaf` is the separate `CVar.cleaf` constructor. -/
inductive COp where
  | cAdd
  | cSub
  | cMul
  | cDiv
deriving DecidableEq, Repr

/-- Modelled from the spec: the `Variable` node of the context draft
(data_id, op tag, requires_grad, two deps), absent from `src/`. -/
inductive CVar where
  | cleaf (id : Nat) (rg : Bool)
  | cnode (id : Nat) (k : COp) (rg : Bool) (l r : CVar)
deriving DecidableEq, Repr

/-- Field `data_id` of `CVar`. -/
def CVar.cid : CVar → Nat
  | .cleaf i _ => i
  | .cnode i _ _ _ _ => i

/-- Field `requires_grad` of `CVar`. -/
def CVar.crg : CVar → Bool
  | .cleaf _ b => b
  | .cnode _ _ b _ _ => b

/-- `Context::topological_sort_helper` (context.rs:49-69): early return on
a visited node unless revisiting is allowed, then mark, recurse, push. -/
def CVar.dfsC (allowRevisit : Bool) : CVar → List Nat → List CVar → List Nat × List CVar
  | .cleaf i b, visited, stack =>
      if !allowRevisit && visited.contains i then (visited, stack)
      else (i :: visited, stack ++ [CVar.cleaf i b])
  | .cnode i k b l r, visited, stack =>
      if !allowRevisit && visited.contains i then (visited, stack)
      else
        let s1 := CVar.dfsC allowRevisit l (i :: visited) stack
        let s2 := CVar.dfsC allowRevisit r s1.1 s1.2
        (s2.1, s2.2 ++ [CVar.cnode i k b l r])

/-- `Context::topological_sort` (context.rs:71-78). -/
def CVar.topoC (entry : CVar) (allowRevisit : Bool) : List CVar :=
  (CVar.dfsC allowRevisit entry [] []).2

/-- The dispatch of `Context::eval_graph` (context.rs:106-112): the
closures passed to `handle_binop` per op tag; `OpDiv` is `|a, b| a / b`. -/
def COp.applyC : COp → ℤ → ℤ → ℤ
  | .cAdd, a, b => a + b
  | .cSub, a, b => a - b
  | .cMul, a, b => a * b
  | .cDiv, a, b => a / b

/-- `Context` state (context.rs:8-13): data map, gradient map, flag. -/
structure CContext where
  data_map : List (Nat × ℤ)
  gradient_map : List (Nat × ℤ)
  evaluated : Bool
deriving DecidableEq, Repr

/-- `Context::handle_binop` (context.rs:38-47): read both deps' data
(indexing panics on a missing key → `none`), insert the computed value. -/
def handle_binop (s : CContext) (op : ℤ → ℤ → ℤ) (l r : CVar) (i : Nat) :
    Option CContext := do
  let lv ← s.data_map.lookup l.cid
  let rv ← s.data_map.lookup r.cid
  pure { s with data_map := (i, op lv rv) :: s.data_map }

/-- The loop body of `Context::eval_graph` (context.rs:104-121): leaves
are skipped (their data was inserted by `Context::var`), op nodes are
computed, and every `requires_grad` node gets a zero entry in the
gradient map (`get_zero_grad` for the scalar carrier is 0). -/
def evalGraphList : List CVar → CContext → Option CContext
  | [], s => some s
  | v :: rest, s => do
      let s1 ←
        match v with
        | CVar.cleaf _ _ => pure s
        | CVar.cnode i k _ l r => handle_binop s k.applyC l r i
      let s2 :=
        if v.crg then
          { s1 with gradient_map := (v.cid, (0 : ℤ)) :: s1.gradient_map }
        else s1
      evalGraphList rest s2

/-- `Context::eval_graph` (context.rs:102-123): unique-mode sort, then the
loop above, then `evaluated = true`. -/
def Context.eval_graph (s : CContext) (root : CVar) : Option CContext := do
  let s1 ← evalGraphList (CVar.topoC root false) s
  pure { s1 with evaluated := true }

example : (Context.eval_graph ⟨[(0, 4), (1, 2)], [], false⟩
    (CVar.cnode 2 COp.cDiv false (CVar.cleaf 0 false) (CVar.cleaf 1 false))).map
      (fun s => s.data_map.lookup 2) = some (some 2) := by decide

/-! ## The f32 capability instance (`src/traits.rs`)

The numeric value of an `f32` never matters to these functions (`t`
returns `*self`, `dot` calls `mul`, `sum` and `sum_axis` unconditionally
abort), so the carrier is again `ℤ`; an abort (`panic` in the source) is
`none`. -/

/-- `Reduce::sum` for f32 (traits.rs:56-58): aborts with
"sum is not implemented for f32". -/
def f32sum (_x : ℤ) : Option ℤ := none

/-- `Reduce::sum_axis` for f32 (traits.rs:60-62): aborts with
"sum_axis is not implemented for f32" — it is NOT the identity. -/
def f32sumAxis (_x : ℤ) (_axis : Nat) : Option ℤ := none

/-- `Dot::dot` for f32 (traits.rs:65-70): `self.mul(other)`. -/
def f32dot (x y : ℤ) : ℤ := x * y

/-- `Transpose::t` for f32 (traits.rs:72-76): `*self`. -/
def f32t (x : ℤ) : ℤ := x

/-! ## Modelled op-surface constructor (spec §4.1) for claim C8 -/

/-- Modelled from the spec: the full op surface `{add, sub, mul, div,
neg, dot}` of §4.1; only `add` and `mul` constructors exist in `src/`
(`variable.rs`), the rest belong to the cell-based `Var` that is not
under `src/`. -/
inductive SOp where
  | sAdd
  | sSub
  | sMul
  | sDiv
  | sNeg
  | sDot
deriving DecidableEq, Repr

/-- Modelled from the spec: a value node of the §3 data model with an
ordered dep list. -/
inductive SNode where
  | sleaf (id : Nat) (rg : Bool)
  | sop (id : Nat) (k : SOp) (rg : Bool) (deps : List SNode)

/-- Field `requires_grad` of `SNode`. -/
def SNode.srg : SNode → Bool
  | .sleaf _ b => b
  | .sop _ _ b _ => b

/-- Modelled from the spec: §4.1 items 1-5 — an op constructor records
the operands in order and sets `requires_grad = OR(dep.requires_grad)`,
reading the flags at construction time. -/
def specOp (i : Nat) (k : SOp) (deps : List SNode) : SNode :=
  .sop i k (deps.any SNode.srg) deps

/-! ## Structural lemmas about the variable.rs embedding -/

/-- With revisiting allowed, `dfs` pushes the full post-order expression
tree below the entry. -/
def postList : Var → List Var
  | .input i b => [Var.input i b]
  | .node i op b l r => postList l ++ postList r ++ [Var.node i op b l r]

lemma dfs_true_stack (v : Var) : ∀ (vis : List Nat) (st : List Var),
    (Var.dfs true v vis st).2 = st ++ postList v := by
  induction v with
  | input i b => intro vis st; simp [Var.dfs, postList]
  | node i op b l r ihl ihr =>
      intro vis st
      simp [Var.dfs, postList, ihl, ihr]

lemma topo_true_eq_postList (v : Var) :
    Var.topological_sort v true = postList v := by
  simp [Var.topological_sort, dfs_true_stack]

lemma dfs_stack_grows (a : Bool) (v : Var) : ∀ (vis : List Nat) (st : List Var),
    ∃ δ, (Var.dfs a v vis st).2 = st ++ δ := by
  induction v with
  | input i b =>
      intro vis st
      by_cases h : a = true ∨ i ∉ vis
      · exact ⟨[Var.input i b], by simp [Var.dfs, h]⟩
      · exact ⟨[], by simp [Var.dfs, h]⟩
  | node i op b l r ihl ihr =>
      intro vis st
      by_cases h : a = true ∨ i ∉ vis
      · obtain ⟨d1, h1⟩ := ihl (i :: vis) st
        obtain ⟨d2, h2⟩ := ihr (Var.dfs a l (i :: vis) st).1 (Var.dfs a l (i :: vis) st).2
        refine ⟨d1 ++ d2 ++ [Var.node i op b l r], ?_⟩
        rw [h1] at h2
        simp [Var.dfs, h, h1, h2]
      · exact ⟨[], by simp [Var.dfs, h]⟩

/-- The unique-mode sort of an op-node root ends with the root itself. -/
lemma topo_false_ends_with_root (i : Nat) (op : BinOp) (b : Bool) (l r : Var) :
    ∃ δ, Var.topological_sort (Var.node i op b l r) false = δ ++ [Var.node i op b l r] := by
  obtain ⟨d1, h1⟩ := dfs_stack_grows false l [i] []
  obtain ⟨d2, h2⟩ := dfs_stack_grows false r (Var.dfs false l [i] []).1 (Var.dfs false l [i] []).2
  refine ⟨d1 ++ d2, ?_⟩
  simp [Var.topological_sort, Var.dfs, h1] at h2 ⊢
  simp [h2]

lemma evalList_append (cells : Cells) (l1 : List Var) : ∀ (l2 : List Var) (m : DataMap),
    evalList cells (l1 ++ l2) m = (evalList cells l1 m).bind (fun m2 => evalList cells l2 m2) := by
  induction l1 with
  | nil => intro l2 m; simp [evalList]
  | cons v rest ih =>
      intro l2 m
      cases v with
      | input i b => simp [evalList, ih]
      | node i op b l r =>
          cases ha : getById cells m l.vid with
          | none => simp [evalList, ha]
          | some a =>
              cases hb : getById cells m r.vid with
              | none => simp [evalList, ha, hb]
              | some bv => simp [evalList, ha, hb, ih]

/-! ## Forward evaluation of the n-fold sum -/

lemma chain_vid (k : Nat) : (chain k).vid = k := by
  cases k <;> simp [chain, xLeaf, Var.new, Var.set_requires_grad, Var.addV, Var.bin_op, Var.vid]

lemma chain_rg (k : Nat) : (chain k).requiresGrad = true := by
  cases k <;> simp [chain, xLeaf, Var.new, Var.set_requires_grad, Var.addV, Var.bin_op,
    Var.requiresGrad]

/-- Unique-mode sort order of `chain k`: the leaf first, then the op
nodes bottom-up. -/
def uChain : Nat → List Var
  | 0 => [xLeaf]
  | k + 1 => uChain k ++ [chain (k + 1)]

lemma xLeaf_eq : xLeaf = Var.input 0 true := rfl

lemma dfs_false_input_skip (i : Nat) (b : Bool) (vis : List Nat) (st : List Var)
    (h : i ∈ vis) : Var.dfs false (Var.input i b) vis st = (vis, st) := by
  simp [Var.dfs, h]

lemma dfs_false_input_push (i : Nat) (b : Bool) (vis : List Nat) (st : List Var)
    (h : i ∉ vis) :
    Var.dfs false (Var.input i b) vis st = (i :: vis, st ++ [Var.input i b]) := by
  simp [Var.dfs, h]

lemma dfs_false_node_push (i : Nat) (op : BinOp) (b : Bool) (l r : Var)
    (vis : List Nat) (st : List Var) (h : i ∉ vis) :
    Var.dfs false (Var.node i op b l r) vis st =
      ((Var.dfs false r (Var.dfs false l (i :: vis) st).1 (Var.dfs false l (i :: vis) st).2).1,
       (Var.dfs false r (Var.dfs false l (i :: vis) st).1 (Var.dfs false l (i :: vis) st).2).2
         ++ [Var.node i op b l r]) := by
  simp [Var.dfs, h]

lemma dfs_false_chain (k : Nat) : ∀ (vis : List Nat) (st : List Var),
    (∀ i ∈ vis, k < i) →
    (Var.dfs false (chain k) vis st).2 = st ++ uChain k ∧
    (∀ i, i ∈ (Var.dfs false (chain k) vis st).1 ↔ i ∈ vis ∨ i ≤ k) := by
  induction k with
  | zero =>
      intro vis st hvis
      have h0 : (0 : Nat) ∉ vis := fun hm => by simpa using hvis 0 hm
      rw [show chain 0 = Var.input 0 true from rfl,
        dfs_false_input_push _ _ _ _ h0]
      refine ⟨by simp [uChain, xLeaf_eq], ?_⟩
      intro i
      simp only [List.mem_cons, Nat.le_zero]
      tauto
  | succ k ih =>
      intro vis st hvis
      have hk1 : (k + 1) ∉ vis := fun hm => by have := hvis (k + 1) hm; omega
      have hstep : ∀ i ∈ (k + 1) :: vis, k < i := by
        intro i hi
        rcases List.mem_cons.mp hi with rfl | hi
        · omega
        · have := hvis i hi; omega
      obtain ⟨hst, hvis2⟩ := ih ((k + 1) :: vis) st hstep
      have h0mem : (0 : Nat) ∈ (Var.dfs false (chain k) ((k + 1) :: vis) st).1 := by
        rw [hvis2]; right; omega
      have hchain : chain (k + 1) =
          Var.node (k + 1) BinOp.add ((chain k).requiresGrad || xLeaf.requiresGrad)
            (chain k) xLeaf := by
        simp [chain, Var.addV, Var.bin_op]
      have hchain2 : Var.node (k + 1) BinOp.add
          ((chain k).requiresGrad || (Var.input 0 true).requiresGrad)
          (chain k) (Var.input 0 true) = chain (k + 1) := by
        simp [chain, Var.addV, Var.bin_op, xLeaf, Var.new, Var.set_requires_grad]
      rw [hchain, dfs_false_node_push _ _ _ _ _ _ _ hk1, xLeaf_eq,
        dfs_false_input_skip _ _ _ _ h0mem]
      constructor
      · simp only [hst, uChain, hchain2]
        simp
      · intro i
        simp only [hvis2 i, List.mem_cons]
        constructor
        · rintro ((rfl | hi) | hle)
          · right; omega
          · left; exact hi
          · right; omega
        · rintro (hi | hle)
          · left; right; exact hi
          · rcases Nat.lt_or_ge i (k + 1) with hlt | hge
            · right; omega
            · left; left; omega

/-- Value of `chain k` under leaf data `d`: `(k+1) * d`, built the way
`eval` builds it. -/
def chainVal (d : ℤ) : Nat → ℤ
  | 0 => d
  | k + 1 => chainVal d k + d

/-- The data map produced by `eval` on `chain k` (newest entry first). -/
def dmChain (d : ℤ) : Nat → DataMap
  | 0 => [(0, DEntry.aliasLeaf 0)]
  | k + 1 => (k + 1, DEntry.owned (chainVal d k + d)) :: dmChain d k

lemma dmChain_lookup (d : ℤ) (k : Nat) : ∀ j, j ≤ k →
    getById [(0, d)] (dmChain d k) j = some (chainVal d j) := by
  induction k with
  | zero =>
      intro j hj
      interval_cases j
      simp [dmChain, getById, List.lookup, chainVal]
  | succ k ih =>
      intro j hj
      by_cases hjk : j = k + 1
      · subst hjk
        simp [dmChain, getById, List.lookup, chainVal]
      · have hj' : j ≤ k := by omega
        have hne : (j == k + 1) = false := beq_eq_false_iff_ne.mpr hjk
        simpa [dmChain, getById, List.lookup, hne] using ih j hj'

lemma topo_false_chain (k : Nat) :
    Var.topological_sort (chain k) false = uChain k := by
  have h := (dfs_false_chain k [] [] (by intro i hi; cases hi)).1
  simpa [Var.topological_sort] using h

lemma eval_chain (d : ℤ) (k : Nat) :
    Var.eval [(0, d)] (chain k) = some (dmChain d k) := by
  induction k with
  | zero =>
      simp [Var.eval, topo_false_chain, uChain, evalList, xLeaf_eq, dmChain]
  | succ k ih =>
      have hu : Var.topological_sort (chain (k + 1)) false = uChain k ++ [chain (k + 1)] := by
        rw [topo_false_chain]; rfl
      have hev : evalList [(0, d)] (uChain k) [] = some (dmChain d k) := by
        have := ih
        rw [Var.eval, topo_false_chain] at this
        exact this
      rw [Var.eval, hu, evalList_append, hev]
      have hcv : chain (k + 1) =
          Var.node (k + 1) BinOp.add ((chain k).requiresGrad || (Var.input 0 true).requiresGrad)
            (chain k) (Var.input 0 true) := by
        simp [chain, Var.addV, Var.bin_op, xLeaf, Var.new, Var.set_requires_grad]
      rw [hcv]
      simp only [Option.some_bind, evalList]
      rw [show (Var.input 0 true).vid = 0 from rfl, chain_vid k,
        dmChain_lookup d k k (le_refl k), dmChain_lookup d k 0 (Nat.zero_le k)]
      simp [evalList, dmChain, chainVal, BinOp.apply]

/-! ## Backward propagation over the n-fold sum -/

/-- Reversed revisit-mode order of `chain k`. -/
def revPost (k : Nat) : List Var := (postList (chain k)).reverse

lemma revPost_zero : revPost 0 = [Var.input 0 true] := rfl

lemma revPost_succ (k : Nat) :
    revPost (k + 1) = chain (k + 1) :: Var.input 0 true :: revPost k := by
  have hcv : chain (k + 1) =
      Var.node (k + 1) BinOp.add ((chain k).requiresGrad || (Var.input 0 true).requiresGrad)
        (chain k) (Var.input 0 true) := by
    simp [chain, Var.addV, Var.bin_op, xLeaf, Var.new, Var.set_requires_grad]
  rw [revPost, hcv]
  simp [postList, revPost, ← hcv]

lemma topo_true_chain_rev (k : Nat) :
    (Var.topological_sort (chain k) true).reverse = revPost k := by
  rw [topo_true_eq_postList, revPost]

lemma add_backward_dep_chain (cells : Cells) (dm : DataMap) (g : GradMap)
    (jj : Nat) (pg wl wr : ℤ)
    (hl : getById cells dm jj = some wl)
    (hr : getById cells dm 0 = some wr) :
    add_backward cells dm g (chain jj) (Var.input 0 true) pg =
      some ((0, ((((jj, (g.lookup jj).getD 0 + pg) :: g).lookup 0).getD 0 + pg)) ::
            (jj, (g.lookup jj).getD 0 + pg) :: g) := by
  simp only [add_backward, chain_rg, chain_vid]
  simp only [Var.requiresGrad, Var.vid]
  simp only [hl, hr, if_true]
  rfl

lemma backwardStep_chain_node (cells : Cells) (dm : DataMap) (g : GradMap)
    (kk jj : Nat) (pg w wl wr : ℤ)
    (hw : getById cells dm (jj + 1) = some w)
    (hgr : (if jj + 1 = kk then some (1 : ℤ) else g.lookup (jj + 1)) = some pg)
    (hl : getById cells dm jj = some wl)
    (hr : getById cells dm 0 = some wr) :
    backwardStep cells kk dm g (chain (jj + 1)) =
      some (((0, ((((jj, (g.lookup jj).getD 0 + pg) :: g).lookup 0).getD 0 + pg)) ::
             (jj, (g.lookup jj).getD 0 + pg) :: g),
            some (jj + 1, pg, g.lookup (jj + 1))) := by
  have hcv : chain (jj + 1) =
      Var.node (jj + 1) BinOp.add ((chain jj).requiresGrad || (Var.input 0 true).requiresGrad)
        (chain jj) (Var.input 0 true) := by
    simp [chain, Var.addV, Var.bin_op, xLeaf, Var.new, Var.set_requires_grad]
  rw [hcv]
  show (getById cells dm (jj + 1)).bind (fun _ =>
      if jj + 1 = kk then
        (some (1 : ℤ)).bind (fun grad =>
          (add_backward cells dm g (chain jj) (Var.input 0 true) grad).bind (fun g2 =>
            some (g2, some (jj + 1, grad, g.lookup (jj + 1)))))
      else
        (g.lookup (jj + 1)).bind (fun grad =>
          (add_backward cells dm g (chain jj) (Var.input 0 true) grad).bind (fun g2 =>
            some (g2, some (jj + 1, grad, g.lookup (jj + 1)))))) = _
  rw [hw]
  by_cases hc : jj + 1 = kk
  · rw [if_pos hc] at hgr ⊢
    obtain rfl : (1 : ℤ) = pg := by injection hgr
    show (add_backward cells dm g (chain jj) (Var.input 0 true) 1).bind (fun g2 =>
        some (g2, some (jj + 1, (1 : ℤ), g.lookup (jj + 1)))) = _
    rw [add_backward_dep_chain cells dm g jj 1 wl wr hl hr]
    rfl
  · rw [if_neg hc] at hgr ⊢
    rw [hgr]
    show (add_backward cells dm g (chain jj) (Var.input 0 true) pg).bind (fun g2 =>
        some (g2, some (jj + 1, pg, some pg))) = _
    rw [add_backward_dep_chain cells dm g jj pg wl wr hl hr]
    rfl

lemma backwardLoop_cons_input (cells : Cells) (kk : Nat) (dm : DataMap)
    (i : Nat) (b : Bool) (rest : List Var) (g : GradMap) (tr : List BwInv) :
    backwardLoop cells kk dm (Var.input i b :: rest) g tr =
      backwardLoop cells kk dm rest g tr := by
  simp [backwardLoop, backwardStep]

lemma bwdLoop_chain (d : ℤ) (kk : Nat) : ∀ (j : Nat), 1 ≤ j → j < kk →
    ∀ (g : GradMap) (tr : List BwInv) (c : ℤ),
      g.lookup j = some 1 →
      g.lookup 0 = some c →
      (∀ i, 1 ≤ i → i < j → g.lookup i = none) →
      ∃ g2 tr2,
        backwardLoop [(0, d)] kk (dmChain d kk) (revPost j) g tr = some (g2, tr2) ∧
        g2.lookup 0 = some (c + (j : ℤ) + 1) := by
  intro j
  induction j with
  | zero => omega
  | succ jj ih =>
      intro _ hjk g tr c hj h0 hint
      have hw := dmChain_lookup d kk (jj + 1) (by omega)
      have hl := dmChain_lookup d kk jj (by omega)
      have hr := dmChain_lookup d kk 0 (by omega)
      have hne : ¬ (jj + 1 = kk) := by omega
      have hgr : (if jj + 1 = kk then some (1 : ℤ) else g.lookup (jj + 1)) = some 1 := by
        rw [if_neg hne, hj]
      rw [revPost_succ]
      rw [show backwardLoop [(0, d)] kk (dmChain d kk)
            (chain (jj + 1) :: Var.input 0 true :: revPost jj) g tr =
          (backwardStep [(0, d)] kk (dmChain d kk) g (chain (jj + 1))).bind
            (fun s => backwardLoop [(0, d)] kk (dmChain d kk)
              (Var.input 0 true :: revPost jj) s.1 (tr ++ s.2.toList)) from rfl]
      rw [backwardStep_chain_node [(0, d)] (dmChain d kk) g kk jj 1 _ _ _ hw hgr hl hr]
      rw [Option.some_bind, backwardLoop_cons_input]
      rcases Nat.eq_zero_or_pos jj with hjj0 | hjjpos
      · subst hjj0
        rw [h0]
        simp only [Option.getD_some, List.lookup, beq_self_eq_true, if_true]
        rw [revPost_zero, backwardLoop_cons_input]
        refine ⟨_, _, rfl, ?_⟩
        simp only [List.lookup, beq_self_eq_true]
        norm_num
      · have hjjnone : g.lookup jj = none := hint jj (by omega) (by omega)
        rw [hjjnone]
        have hjjne0 : (0 : Nat) ≠ jj := by omega
        have hlook0 : (((jj, (none : Option ℤ).getD 0 + 1) :: g).lookup 0) = some c := by
          simp only [List.lookup, beq_eq_false_iff_ne.mpr hjjne0]
          exact h0
        rw [hlook0]
        simp only [Option.getD_some, Option.getD_none]
        set g2 : GradMap := (0, c + 1) :: (jj, 0 + 1) :: g with hg2
        have hg2j : g2.lookup jj = some 1 := by
          have hne0 : (jj == 0) = false := beq_eq_false_iff_ne.mpr (by omega)
          simp only [hg2, List.lookup, hne0, beq_self_eq_true]
          norm_num
        have hg20 : g2.lookup 0 = some (c + 1) := by
          simp [hg2, List.lookup]
        have hg2int : ∀ i, 1 ≤ i → i < jj → g2.lookup i = none := by
          intro i h1 h2
          have hi0 : (i == 0) = false := beq_eq_false_iff_ne.mpr (by omega)
          have hij : (i == jj) = false := beq_eq_false_iff_ne.mpr (by omega)
          simp only [hg2, List.lookup, hi0, hij]
          exact hint i h1 (by omega)
        obtain ⟨g3, tr3, hrun, hg3⟩ :=
          ih (by omega) (by omega) g2 (tr ++ [(jj + 1, 1, g.lookup (jj + 1))]) (c + 1)
            hg2j hg20 hg2int
        refine ⟨g3, tr3, ?_, ?_⟩
        · rw [← hrun]
          rfl
        · rw [hg3]
          congr 1
          push_cast
          ring

lemma backward_unfold (cells : Cells) (root : Var) :
    Var.backward cells root = (Var.eval cells root).bind (fun dm =>
      (backwardLoop cells root.vid dm (Var.topological_sort root true).reverse [] []).bind
        (fun s => some s.1)) := rfl

/-- C1 (amended to n ≥ 2): for the n-fold sum `y = x + x + … + x` built
with `add` from a single requires-grad leaf `x` (n = k+1 copies, k ≥ 1
adds), variable.rs's `backward` records `x.grad = n * one = n`.  The
original claim's n = 1 case fails: see the counterexample theorem. -/
theorem claim1_nfold_sum_gradient (d : ℤ) (k : Nat) (hk : 1 ≤ k) :
    (Var.backward [(0, d)] (chain k)).bind (fun g => g.lookup 0) =
      some (((k : ℤ) + 1) * 1) := by
  obtain ⟨kk, rfl⟩ : ∃ kk, k = kk + 1 := ⟨k - 1, by omega⟩
  rw [backward_unfold, eval_chain, chain_vid, topo_true_chain_rev]
  show ((backwardLoop [(0, d)] (kk + 1) (dmChain d (kk + 1)) (revPost (kk + 1)) [] []).bind
      (fun s => some s.1)).bind (fun g => g.lookup 0) = _
  rw [revPost_succ]
  have hw := dmChain_lookup d (kk + 1) (kk + 1) (le_refl _)
  have hl := dmChain_lookup d (kk + 1) kk (by omega)
  have hr := dmChain_lookup d (kk + 1) 0 (by omega)
  have hgr : (if kk + 1 = kk + 1 then some (1 : ℤ)
      else List.lookup (kk + 1) ([] : GradMap)) = some 1 := by rw [if_pos rfl]
  have hstep := backwardStep_chain_node [(0, d)] (dmChain d (kk + 1)) [] (kk + 1) kk 1
    _ _ _ hw hgr hl hr
  show (((backwardStep [(0, d)] (kk + 1) (dmChain d (kk + 1)) [] (chain (kk + 1))).bind
      (fun s => backwardLoop [(0, d)] (kk + 1) (dmChain d (kk + 1))
        (Var.input 0 true :: revPost kk) s.1 ([] ++ s.2.toList))).bind
      (fun s => some s.1)).bind (fun g => g.lookup 0) = _
  rw [hstep]
  show (((backwardLoop [(0, d)] (kk + 1) (dmChain d (kk + 1))
      (Var.input 0 true :: revPost kk)
      ((0, ((((kk, (List.lookup kk ([] : GradMap)).getD 0 + 1) ::
        ([] : GradMap)).lookup 0).getD 0 + 1)) ::
        (kk, (List.lookup kk ([] : GradMap)).getD 0 + 1) :: [])
      [(kk + 1, 1, List.lookup (kk + 1) ([] : GradMap))])).bind
      (fun s => some s.1)).bind (fun g => g.lookup 0) = _
  rw [backwardLoop_cons_input]
  rcases Nat.eq_zero_or_pos kk with hkk0 | hkkpos
  · subst hkk0
    show (((backwardLoop [(0, d)] 1 (dmChain d 1) (revPost 0)
        ((0, (0 : ℤ) + 1 + 1) :: (0, (0 : ℤ) + 1) :: [])
        [(1, 1, none)])).bind (fun s => some s.1)).bind (fun g => g.lookup 0) = _
    rw [revPost_zero, backwardLoop_cons_input]
    show some ((0 : ℤ) + 1 + 1) = _
    norm_num
  · obtain ⟨jj, rfl⟩ : ∃ jj, kk = jj + 1 := ⟨kk - 1, by omega⟩
    set g2 : GradMap := (0, ((((jj + 1, (List.lookup (jj + 1) ([] : GradMap)).getD 0 + 1) ::
        ([] : GradMap)).lookup 0).getD 0 + 1)) ::
        (jj + 1, (List.lookup (jj + 1) ([] : GradMap)).getD 0 + 1) :: [] with hg2def
    have hg2k : g2.lookup (jj + 1) = some 1 := by
      simp [hg2def, List.lookup]
    have hg20 : g2.lookup 0 = some 1 := by
      simp [hg2def, List.lookup]
    have hg2int : ∀ i, 1 ≤ i → i < jj + 1 → g2.lookup i = none := by
      intro i h1 h2
      have hi0 : (i == 0) = false := beq_eq_false_iff_ne.mpr (by omega)
      have hij : (i == jj + 1) = false := beq_eq_false_iff_ne.mpr (by omega)
      simp [hg2def, List.lookup, hi0, hij]
    obtain ⟨g3, tr3, hrun, hg3⟩ := bwdLoop_chain d (jj + 1 + 1) (jj + 1) (by omega) (by omega)
      g2 [(jj + 1 + 1, 1, List.lookup (jj + 1 + 1) ([] : GradMap))] 1 hg2k hg20 hg2int
    rw [hrun]
    show g3.lookup 0 = _
    rw [hg3]
    congr 1
    push_cast
    ring

/-- C1 counterexample (n = 1): with one copy the root is the leaf `x`
itself; leaves carry no `backward_fn`, so `backward` leaves the grad map
empty and the gradient recorded for `x` is `none`, not `1 * one`. -/
theorem claim1_counterexample :
    (Var.backward [(0, (2 : ℤ))] (chain 0)).bind (fun g => g.lookup 0) = none ∧
    (none : Option ℤ) ≠ some (1 * 1) := by decide

/-- C1 witness: the amended theorem applied at n = 3 (k = 2 adds... k = 2
gives the 3-fold sum) with leaf data 5. -/
theorem claim1_witness :
    1 ≤ 2 ∧ (Var.backward [(0, (5 : ℤ))] (chain 2)).bind (fun g => g.lookup 0) =
      some ((((2 : Nat) : ℤ) + 1) * 1) :=
  ⟨by decide, claim1_nfold_sum_gradient 5 2 (by decide)⟩

/-! ## Claim C2: which sort does backward use -/

def xC2 : Var := Var.set_requires_grad (Var.new 0) true
def yC2 : Var := Var.new 1
def zC2 : Var := Var.addV xC2 yC2 2
def aC2 : Var := Var.addV zC2 zC2 3

/-- C2: variable.rs's `Var::backward` sorts with `allow_revisit = true`
(variable.rs:190), NOT unique mode.  On the shared-node graph
`a = z + z`, `z = x + y` (x requires grad) the revisit order lists `z`
twice, `z` is processed twice, and `x`'s gradient comes out as 4; the
unique-mode backward asserted by the claim (and implemented by
`Context::backward`, context.rs:89) yields the correct 2 = d(2(x+y))/dx. -/
theorem claim2_backward_revisit_divergence :
    (Var.topological_sort aC2 true).map Var.vid = [0, 1, 2, 0, 1, 2, 3] ∧
    (Var.topological_sort aC2 false).map Var.vid = [0, 1, 2, 3] ∧
    (Var.backward [(0, 1), (1, 1)] aC2).bind (fun g => g.lookup 0) = some 4 ∧
    (Var.backwardUnique [(0, 1), (1, 1)] aC2).bind (fun g => g.lookup 0) = some 2 := by
  decide

/-! ## Claim C5: seed at the root, accumulated grads elsewhere -/

def xC5 : Var := Var.set_requires_grad (Var.new 0) true
def yC5 : Var := Var.new 1
def zC5 : Var := Var.addV xC5 yC5 2
def aC5 : Var := Var.addV zC5 zC5 3

/-- C5 counterexample: in variable2.rs's `backward` (variable2.rs:171) the
handler of EVERY node receives the fresh ones seed.  On `a = z + z`,
`z = x + y`, the handler of the non-root node `z` (id 2) is invoked with
gradient 1 although `z`'s accumulated grad-map value at that moment is 2
— the recorded invocations are (id, grad passed, grad-map entry). -/
theorem claim5_counterexample :
    Var2.backwardInvs [(0, 1), (1, 1)] aC5 =
      some [(3, 1, none), (2, 1, some 2), (2, 1, some 2)] ∧
    (1 : ℤ) ≠ 2 := by decide

lemma backwardStep_inv_shape (cells : Cells) (rootId : Nat) (dm : DataMap) (g : GradMap)
    (i : Nat) (op : BinOp) (brg : Bool) (l r : Var) (s : GradMap × Option BwInv)
    (hs : backwardStep cells rootId dm g (Var.node i op brg l r) = some s) :
    ∃ grad, s.2 = some (i, grad, g.lookup i) ∧
      (i = rootId → grad = 1) ∧ (i ≠ rootId → g.lookup i = some grad) := by
  cases op with
  | add =>
      simp only [backwardStep] at hs
      obtain ⟨w, hw, hs2⟩ := Option.bind_eq_some.mp hs
      by_cases hc : i = rootId
      · rw [if_pos hc] at hs2
        obtain ⟨grad, hgrad, hs3⟩ := Option.bind_eq_some.mp hs2
        obtain ⟨g2, hg2, hs4⟩ := Option.bind_eq_some.mp hs3
        obtain rfl : (g2, some (i, grad, g.lookup i)) = s := by injection hs4
        obtain rfl : (1 : ℤ) = grad := by injection hgrad
        exact ⟨1, rfl, fun _ => rfl, fun hne => absurd hc hne⟩
      · rw [if_neg hc] at hs2
        obtain ⟨grad, hgrad, hs3⟩ := Option.bind_eq_some.mp hs2
        obtain ⟨g2, hg2, hs4⟩ := Option.bind_eq_some.mp hs3
        obtain rfl : (g2, some (i, grad, g.lookup i)) = s := by injection hs4
        exact ⟨grad, rfl, fun habs => absurd habs hc, fun _ => hgrad⟩
  | mul =>
      simp only [backwardStep] at hs
      obtain ⟨w, hw, hs2⟩ := Option.bind_eq_some.mp hs
      by_cases hc : i = rootId
      · rw [if_pos hc] at hs2
        obtain ⟨grad, hgrad, hs3⟩ := Option.bind_eq_some.mp hs2
        obtain ⟨g2, hg2, hs4⟩ := Option.bind_eq_some.mp hs3
        obtain rfl : (g2, some (i, grad, g.lookup i)) = s := by injection hs4
        obtain rfl : (1 : ℤ) = grad := by injection hgrad
        exact ⟨1, rfl, fun _ => rfl, fun hne => absurd hc hne⟩
      · rw [if_neg hc] at hs2
        obtain ⟨grad, hgrad, hs3⟩ := Option.bind_eq_some.mp hs2
        obtain ⟨g2, hg2, hs4⟩ := Option.bind_eq_some.mp hs3
        obtain rfl : (g2, some (i, grad, g.lookup i)) = s := by injection hs4
        exact ⟨grad, rfl, fun habs => absurd habs hc, fun _ => hgrad⟩

lemma backwardLoop_inv (cells : Cells) (rootId : Nat) (dm : DataMap) :
    ∀ (lst : List Var) (g : GradMap) (tr0 : List BwInv) (res : GradMap × List BwInv),
      (∀ e ∈ tr0, (e.1 = rootId → e.2.1 = 1) ∧ (e.1 ≠ rootId → e.2.2 = some e.2.1)) →
      backwardLoop cells rootId dm lst g tr0 = some res →
      ∀ e ∈ res.2, (e.1 = rootId → e.2.1 = 1) ∧ (e.1 ≠ rootId → e.2.2 = some e.2.1) := by
  intro lst
  induction lst with
  | nil =>
      intro g tr0 res h0 hrun
      obtain rfl : (g, tr0) = res := by simpa [backwardLoop] using hrun
      exact h0
  | cons v rest ih =>
      intro g tr0 res h0 hrun
      cases v with
      | input i b =>
          rw [backwardLoop_cons_input] at hrun
          exact ih g tr0 res h0 hrun
      | node i op brg l r =>
          rw [show backwardLoop cells rootId dm (Var.node i op brg l r :: rest) g tr0 =
              (backwardStep cells rootId dm g (Var.node i op brg l r)).bind
                (fun s => backwardLoop cells rootId dm rest s.1 (tr0 ++ s.2.toList))
            from rfl] at hrun
          obtain ⟨s, hs, hrun2⟩ := Option.bind_eq_some.mp hrun
          obtain ⟨grad, hinv, hroot, hnonroot⟩ :=
            backwardStep_inv_shape cells rootId dm g i op brg l r s hs
          refine ih s.1 (tr0 ++ s.2.toList) res ?_ hrun2
          intro e he
          rcases List.mem_append.mp he with he0 | hei
          · exact h0 e he0
          · rw [hinv] at hei
            simp only [Option.toList_some, List.mem_singleton] at hei
            subst hei
            exact ⟨fun h => hroot h, fun h => hnonroot h⟩

/-- C5 (amended): in variable.rs's `Var::backward`, the grad passed to a
handler invocation is the ones seed exactly when the node carries the
root's id, and for every other node it is precisely that node's current
grad-map entry — the gradient accumulated so far by its parents'
handler writes, since nothing else writes the grad map.  (variable2.rs's
earlier draft violates this: see the counterexample.) -/
theorem claim5_root_seed_accumulated (cells : Cells) (root : Var) (tr : List BwInv)
    (h : Var.backwardInvs cells root = some tr) :
    ∀ e ∈ tr, (e.1 = root.vid → e.2.1 = 1) ∧ (e.1 ≠ root.vid → e.2.2 = some e.2.1) := by
  rw [show Var.backwardInvs cells root = (Var.eval cells root).bind (fun dm =>
      (backwardLoop cells root.vid dm (Var.topological_sort root true).reverse [] []).bind
        (fun s => some s.2)) from rfl] at h
  obtain ⟨dm, hdm, h2⟩ := Option.bind_eq_some.mp h
  obtain ⟨s, hsrun, h3⟩ := Option.bind_eq_some.mp h2
  obtain rfl : s.2 = tr := by injection h3
  exact backwardLoop_inv cells root.vid dm _ [] [] s (by intro e he; cases he) hsrun

/-- C5 witness: the amended theorem applied to `z = x + x` (root id 1):
its only invocation is the root's, with the ones seed. -/
theorem claim5_witness :
    Var.backwardInvs [(0, (1 : ℤ))] (Var.addV (Var.input 0 true) (Var.input 0 true) 1) =
      some [(1, 1, none)] ∧
    (((1 : Nat) = (Var.addV (Var.input 0 true) (Var.input 0 true) 1).vid → (1 : ℤ) = 1) ∧
     ((1 : Nat) ≠ (Var.addV (Var.input 0 true) (Var.input 0 true) 1).vid →
       (none : Option ℤ) = some 1)) :=
  ⟨by decide,
    claim5_root_seed_accumulated [(0, (1 : ℤ))]
      (Var.addV (Var.input 0 true) (Var.input 0 true) 1) [(1, 1, none)] (by decide)
      (1, 1, none) (by decide)⟩

/-! ## Claim C3: dot backward -/

def xC3 : NDArr := ⟨[2, 1], [1, 2]⟩
def yC3 : NDArr := ⟨[1, 3], [3, 4, 5]⟩

/-- C3: for `Z = X · Y` with X : [2,1] (m=2, k=1), Y : [1,3] (n=3), both
requiring grad, `dot_backward` seeded with `dZ = ones of Z's shape`
computes Y's gradient correctly (`Xᵀ·dZ`, shape [1,3]) but initialises
X's missing gradient from zeros of Y's shape (backward_linalg_ops.rs:15
uses `r_dep` instead of `l_dep`), so X's gradient broadcasts to shape
[2,3] with every entry 12, instead of `dZ·Yᵀ = [[12],[12]]` of X's own
shape [2,1]. -/
theorem claim3_dot_backward_left_shape_bug :
    NDArr.dot xC3 yC3 = some ⟨[2, 3], [3, 4, 5, 6, 8, 10]⟩ ∧
    NDArr.oneGrad ⟨[2, 3], [3, 4, 5, 6, 8, 10]⟩ = NDArr.fill [2, 3] 1 ∧
    dot_backward_nd xC3 yC3 true true none none (NDArr.fill [2, 3] 1) =
      some (some ⟨[2, 3], [12, 12, 12, 12, 12, 12]⟩, some ⟨[1, 3], [3, 3, 3]⟩) ∧
    (NDArr.t yC3).bind (fun yt => NDArr.dot (NDArr.fill [2, 3] 1) yt) =
      some ⟨[2, 1], [12, 12]⟩ ∧
    ([2, 3] : List Nat) ≠ [2, 1] := by decide

/-! ## Claim C4: broadcast un-reduction in the elementwise handlers -/

def xC4 : NDArr := ⟨[1, 3], [1, 2, 3]⟩
def yC4 : NDArr := ⟨[2, 3], [1, 1, 1, 1, 1, 1]⟩

/-- C4: `mul_backward` (and `sub_backward`) never call
`compute_broadcasted_gradients`, so for `z = x * y` with x : [1,3]
(requires grad) and y : [2,3], x's gradient keeps the broadcast shape
[2,3] instead of being reduced back to [1,3].  Moreover even
`add_backward`, which does call the reducer, aborts for x : [3] with
y : [2,3]: the reducer sums the wrong axis (axis `ndims_added` = 1
instead of the added leading axis) and produces a [2]-shaped array that
cannot be added to x's zeros of shape [3]. -/
theorem claim4_elementwise_unbroadcast_bug :
    mul_backward_nd xC4 yC4 true true none none (NDArr.fill [2, 3] 1) =
      some (some ⟨[2, 3], [1, 1, 1, 1, 1, 1]⟩, some ⟨[2, 3], [1, 2, 3, 1, 2, 3]⟩) ∧
    ([2, 3] : List Nat) ≠ [1, 3] ∧
    add_backward_nd ⟨[3], [1, 2, 3]⟩ yC4 true true none none (NDArr.fill [2, 3] 1) =
      none := by decide

/-! ## Claim C6: Div forward semantics -/

/-- C6: the scalar path of `Context::eval_graph` assigns the true
quotient (6 / 2 = 3 for the `i32`-style carrier), but the tensor
element type's division operator (`impl Div for NDArray`,
traits_ndarray.rs:48-53) multiplies: `[6] / [2]` evaluates to `[12]`,
not the elementwise quotient `[3]`. -/
theorem claim6_ndarray_div_multiplies :
    NDArr.divA ⟨[1], [6]⟩ ⟨[1], [2]⟩ = some ⟨[1], [12]⟩ ∧
    (⟨[1], [12]⟩ : NDArr) ≠ ⟨[1], [3]⟩ ∧
    (Context.eval_graph ⟨[(0, 6), (1, 2)], [], false⟩
      (CVar.cnode 2 COp.cDiv false (CVar.cleaf 0 false) (CVar.cleaf 1 false))).map
        (fun s => s.data_map.lookup 2) = some (some 3) := by decide

/-! ## Claim C7: set_requires_grad on a non-leaf -/

def zC7 : Var := Var.addV (Var.new 0) (Var.new 1) 2

/-- C7 counterexample: `set_requires_grad(true)` on the op node
`z = x + y` is NOT rejected — there is no check and no
`InvalidRequiresGradTarget` anywhere in `src/`; the call simply sets the
flag on the non-leaf. -/
theorem claim7_counterexample :
    Var.isLeaf zC7 = false ∧
    Var.set_requires_grad zC7 true =
      Var.node 2 BinOp.add true (Var.input 0 false) (Var.input 1 false) ∧
    (Var.set_requires_grad zC7 true).requiresGrad = true := by decide

/-- C7 (amended): `Var::set_requires_grad` (variable.rs:255-257, and the
identical setter of variable2.rs:212-214) unconditionally assigns the
flag on any node, leaf or not, preserving everything else; no error is
raised. -/
theorem claim7_set_requires_grad_unconditional (v : Var) (b : Bool) :
    (Var.set_requires_grad v b).requiresGrad = b ∧
    (Var.set_requires_grad v b).vid = v.vid ∧
    (Var.set_requires_grad v b).isLeaf = v.isLeaf := by
  cases v <;> simp [Var.set_requires_grad, Var.requiresGrad, Var.vid, Var.isLeaf]

/-! ## Claim C8: requires_grad is the OR of the deps, snapshotted -/

/-- C8: every op constructor snapshots `requires_grad` as the OR of its
operands' flags at construction time: `bin_op` (hence `add` and `mul`) in
variable.rs, `add` in variable2.rs (same node shape), and the
spec-modelled constructor covering the op kinds absent from `src/`
(sub, div, neg, dot).  The deps are stored by value (`copy(false)`
copies the flag), so the constructed node is a fixed value: toggling an
operand's flag afterwards produces a different operand value and leaves
the already-built node — including its stored dep flags — unchanged, as
the last two conjuncts exhibit. -/
theorem claim8_requires_grad_or_snapshot (x y : Var) (i : Nat) (k : BinOp)
    (b1 b2 : Bool) (j : Nat) (sk : SOp) (deps : List SNode) :
    (Var.bin_op x y i k).requiresGrad = (x.requiresGrad || y.requiresGrad) ∧
    (Var.addV x y i).requiresGrad = (x.requiresGrad || y.requiresGrad) ∧
    (Var.mulV x y i).requiresGrad = (x.requiresGrad || y.requiresGrad) ∧
    (specOp j sk deps).srg = deps.any SNode.srg ∧
    (Var.bin_op (Var.set_requires_grad x b1) (Var.set_requires_grad y b2) i k).requiresGrad
      = (b1 || b2) ∧
    Var.bin_op x y i k = Var.node i k (x.requiresGrad || y.requiresGrad) x y := by
  have hset : ∀ (v : Var) (b : Bool), (Var.set_requires_grad v b).requiresGrad = b := by
    intro v b
    cases v <;> simp [Var.set_requires_grad, Var.requiresGrad]
  refine ⟨rfl, rfl, rfl, rfl, ?_, rfl⟩
  show ((Var.set_requires_grad x b1).requiresGrad ||
      (Var.set_requires_grad y b2).requiresGrad) = (b1 || b2)
  rw [hset, hset]

/-! ## Claim C9: the scalar capability instance -/

/-- C9 counterexample: `sum_axis` for the scalar element type is NOT the
identity — traits.rs:60-62 unconditionally aborts ("sum_axis is not
implemented for f32"). -/
theorem claim9_counterexample : f32sumAxis 1 0 ≠ some 1 := by decide

/-- C9 (amended): for the scalar element type, `transpose` is the
identity and `dot` equals elementwise `mul` (traits.rs:65-76), but `sum`
and `sum_axis` (any axis) abort as unimplemented instead of acting as
the identity. -/
theorem claim9_scalar_capability (x y : ℤ) (ax : Nat) :
    f32t x = x ∧ f32dot x y = x * y ∧ f32sumAxis x ax = none ∧ f32sum x = none := by
  exact ⟨rfl, rfl, rfl, rfl⟩

/-! ## Claim C10: val caching through the evaluated flag -/

lemma eval_node_owned_head (cells : Cells) (i : Nat) (op : BinOp) (b : Bool) (l r : Var)
    (dm : DataMap) (h : Var.eval cells (Var.node i op b l r) = some dm) :
    ∃ q rest, dm = (i, DEntry.owned q) :: rest := by
  obtain ⟨δ, hδ⟩ := topo_false_ends_with_root i op b l r
  rw [Var.eval, hδ, evalList_append] at h
  obtain ⟨m1, hm1, h2⟩ := Option.bind_eq_some.mp h
  rw [show evalList cells [Var.node i op b l r] m1 =
      (getById cells m1 l.vid).bind (fun a => (getById cells m1 r.vid).bind (fun bv =>
        some ((i, DEntry.owned (BinOp.apply op a bv)) :: m1))) from rfl] at h2
  obtain ⟨a, ha, h3⟩ := Option.bind_eq_some.mp h2
  obtain ⟨bv, hbv, h4⟩ := Option.bind_eq_some.mp h3
  obtain h5 : (i, DEntry.owned (BinOp.apply op a bv)) :: m1 = dm := by injection h4
  exact ⟨BinOp.apply op a bv, m1, h5.symm⟩

lemma getById_owned_head (cells : Cells) (i : Nat) (q : ℤ) (rest : DataMap) :
    getById cells ((i, DEntry.owned q) :: rest) i = some q := by
  simp [getById, List.lookup]

/-- C10 (amended to op-node handles): once a first `val()` on an op-node
handle has run `eval` and set the `evaluated` flag, every later `val()`
on the returned handle — under ANY leaf-cell state, in particular after
a leaf's data has been overwritten — returns the same cached result and
the unchanged handle, without re-running `eval`: the root's data-map
entry is an owned cell, so leaf overwrites cannot show through it.  For
a LEAF handle the cached entry aliases the leaf's live cell and the
overwrite is visible (see the counterexample); an explicit `eval()`
recomputes either way. -/
theorem claim10_val_cached_for_op_roots (cells cells2 : Cells) (i : Nat) (op : BinOp)
    (b : Bool) (l r : Var) (res : Option ℤ) (h2 : Handle)
    (hv : Handle.val cells (Handle.new (Var.node i op b l r)) = some (res, h2)) :
    Handle.val cells2 h2 = some (res, h2) := by
  rw [show Handle.val cells (Handle.new (Var.node i op b l r)) =
      (Handle.evalH cells (Handle.new (Var.node i op b l r))).bind (fun h3 =>
        some (h3.dataMap.bind (fun dm => getById cells dm h3.var.vid), h3)) from rfl] at hv
  obtain ⟨h3, hEv, hres⟩ := Option.bind_eq_some.mp hv
  rw [Handle.evalH] at hEv
  obtain ⟨dm, hdm, hh3⟩ := Option.map_eq_some'.mp hEv
  subst hh3
  obtain ⟨hres1, hres2⟩ := Prod.mk.injEq .. ▸ Option.some.injEq .. ▸ hres
  obtain ⟨q, rest, hq⟩ := eval_node_owned_head cells i op b l r dm hdm
  subst hq
  rw [← hres2]
  show some (getById cells2 ((i, DEntry.owned q) :: rest) i, _) = _
  rw [getById_owned_head, ← hres1]
  show _ = some (getById cells ((i, DEntry.owned q) :: rest) i, _)
  rw [getById_owned_head]

def zC10 : Var := Var.addV (Var.new 0) (Var.new 1) 2

def hC10 : Handle :=
  ⟨zC10, true, some [(2, DEntry.owned 3), (1, DEntry.aliasLeaf 1), (0, DEntry.aliasLeaf 0)]⟩

/-- C10 witness: the op root `z = x + y` with x = 1, y = 2: the first
`val()` caches 3; after overwriting x's cell to 10, `val()` on the
evaluated handle still returns 3 (the amended theorem applied), while a
fresh explicit `eval()` under the new cells recomputes 12. -/
theorem claim10_witness :
    Handle.val [(0, 1), (1, 2)] (Handle.new zC10) = some (some 3, hC10) ∧
    Handle.val (overwriteLeaf [(0, 1), (1, 2)] 0 10) hC10 = some (some 3, hC10) ∧
    (Handle.evalH (overwriteLeaf [(0, 1), (1, 2)] 0 10) hC10).bind
      (fun h3 => Handle.val (overwriteLeaf [(0, 1), (1, 2)] 0 10) h3) =
      some (some 12, ⟨zC10, true,
        some [(2, DEntry.owned 12), (1, DEntry.aliasLeaf 1), (0, DEntry.aliasLeaf 0)]⟩) :=
  ⟨by decide,
    claim10_val_cached_for_op_roots [(0, 1), (1, 2)] (overwriteLeaf [(0, 1), (1, 2)] 0 10)
      2 BinOp.add false (Var.input 0 false) (Var.input 1 false) (some 3) hC10 (by decide),
    by decide⟩

def hX10 : Handle := ⟨Var.input 0 false, true, some [(0, DEntry.aliasLeaf 0)]⟩

/-- C10 counterexample: for a LEAF handle the claim's "in particular"
clause fails: `x.val()` returns 1, then after overwriting x's data cell
to 5 the second `val()` — which does skip `eval` (the handle is
unchanged, `evaluated` stays true) — returns 5, because the cached
data-map entry is an alias of the leaf's live cell, not a frozen copy. -/
theorem claim10_counterexample :
    Handle.val [(0, (1 : ℤ))] (Handle.new (Var.input 0 false)) = some (some 1, hX10) ∧
    Handle.val (overwriteLeaf [(0, (1 : ℤ))] 0 5) hX10 = some (some 5, hX10) ∧
    some (5 : ℤ) ≠ some 1 := by decide
